import Mathlib

/-!
Verification of the gibon IPFS-backed pastebin service.

The development shallowly embeds the paste envelope and encryption
subsystem of the repository: the cipher layer built on AES-GCM with a
SHA-256-derived key, the JSON paste envelope of the structured variant,
the public/internal path rewriting, and the request handlers' validation
logic.  Byte sequences are modelled as lists of natural numbers (each
entry a byte value), and strings as such byte lists where the code works
at byte granularity.

The AES block cipher, the GCM keystream/tag core and SHA-256 are Go
standard-library primitives external to the repository; they are
modelled abstractly by a CryptoModel structure carrying the keystream
function, the tag function and the hash, together with their documented
length laws.  Everything the repository itself does with those
primitives -- the nonce-prepended blob layout, the key derivation call,
the nonce-size check and the authenticated-open failure path -- is
transcribed directly from the source.
-/

/-- Byte strings are lists of natural numbers (byte values). -/
abbrev Bytes := List Nat

/-- Standard GCM nonce size in bytes (Go cipher.NewGCM NonceSize). -/
def gcmStandardNonceSize : Nat := 12

/-- GCM tag size in bytes (Go gcmTagSize). -/
def gcmTagSize : Nat := 16

/-- Abstract model of the Go standard-library crypto primitives used by
the repository: SHA-256, and the AES-CTR keystream and GHASH-based tag
that make up AES-GCM.  The length laws are the documented contracts of
those primitives (the keystream matches the requested length, tags are
16 bytes). -/
structure CryptoModel where
  sha256 : Bytes → Bytes
  keystream : Bytes → Bytes → Nat → Bytes
  tagOf : Bytes → Bytes → Bytes → Bytes
  keystream_length : ∀ k n l, (keystream k n l).length = l
  tagOf_length : ∀ k n c, (tagOf k n c).length = gcmTagSize

/-- Pointwise XOR of two byte strings, truncating to the shorter input
(Go xors equal-length slices). -/
def xorBytes (a b : Bytes) : Bytes := List.zipWith (fun x y => x ^^^ y) a b

/-- GCM Seal on the model: CTR-encrypt the plaintext with the keystream,
then append the authentication tag computed over the ciphertext
(Go cipher.AEAD Seal with nil dst and nil additional data). -/
def gcmSeal (C : CryptoModel) (key nonce pt : Bytes) : Bytes :=
  let ct := xorBytes pt (C.keystream key nonce pt.length)
  ct ++ C.tagOf key nonce ct

/-- GCM Open on the model: reject inputs shorter than the tag, split off
the trailing tag, recompute the tag over the ciphertext and compare,
then CTR-decrypt on success (Go cipher.AEAD Open with nil dst and nil
additional data; none models the errOpen failure). -/
def gcmOpen (C : CryptoModel) (key nonce data : Bytes) : Option Bytes :=
  if data.length < gcmTagSize then none
  else
    let ct := data.take (data.length - gcmTagSize)
    let tag := data.drop (data.length - gcmTagSize)
    if tag = C.tagOf key nonce ct then
      some (xorBytes ct (C.keystream key nonce ct.length))
    else none

/-- UTF-8 bytes of a passphrase string (Go byte-slice conversion of a
string). -/
def strBytes (s : String) : Bytes := s.toUTF8.toList.map (fun b => b.toNat)

/-- Key derivation of newAESGCMBlockCiperForKey: the AES-GCM key is the
SHA-256 digest of the passphrase bytes. -/
def newAESGCMKey (C : CryptoModel) (key : String) : Bytes :=
  C.sha256 (strBytes key)

/-- The paste struct of the encryption variant: a raw byte body. -/
structure paste where
  text : Bytes
deriving DecidableEq

/-- The encrypt method on paste: derive the AEAD for the key, draw a
nonce of the required size from the random source (modelled as the
leading bytes of the rng stream), seal the text, and store
nonce ++ ciphertext as the new text. -/
def paste.encrypt (C : CryptoModel) (rng : Bytes) (key : String) (p : paste) : paste :=
  let gcmKey := newAESGCMKey C key
  let nonce := rng.take gcmStandardNonceSize
  let cipherText := gcmSeal C gcmKey nonce p.text
  ⟨nonce ++ cipherText⟩

/-- The decrypt method on paste: derive the AEAD for the key, fail if the
text is shorter than the nonce, otherwise split nonce and ciphertext and
attempt an authenticated open, storing the recovered plaintext. -/
def paste.decrypt (C : CryptoModel) (key : String) (p : paste) : Except String paste :=
  let gcmKey := newAESGCMKey C key
  if gcmStandardNonceSize > p.text.length then
    Except.error "text not long enough to contain nonce"
  else
    match gcmOpen C gcmKey (p.text.take gcmStandardNonceSize)
        (p.text.drop gcmStandardNonceSize) with
    | some text => Except.ok ⟨text⟩
    | none => Except.error "cipher: message authentication failed"

/- Helper lemmas about the cipher layer. -/

theorem xorBytes_length (a b : Bytes) : (xorBytes a b).length = min a.length b.length := by
  simp [xorBytes]

theorem xorBytes_cancel (a b : Bytes) (h : a.length ≤ b.length) :
    xorBytes (xorBytes a b) b = a := by
  induction a generalizing b with
  | nil => simp [xorBytes]
  | cons x xs ih =>
    cases b with
    | nil => simp at h
    | cons y ys =>
      have hle : xs.length ≤ ys.length := by
        simp only [List.length_cons] at h; omega
      show ((x ^^^ y) ^^^ y) :: xorBytes (xorBytes xs ys) ys = x :: xs
      rw [Nat.xor_cancel_right, ih ys hle]

theorem take_append_of_length (l t : Bytes) (n : Nat) (h : l.length = n) :
    (l ++ t).take n = l := by
  subst h; exact List.take_left l t

theorem drop_append_of_length (l t : Bytes) (n : Nat) (h : l.length = n) :
    (l ++ t).drop n = t := by
  subst h; exact List.drop_left l t

theorem gcmSeal_length (C : CryptoModel) (key nonce pt : Bytes) :
    (gcmSeal C key nonce pt).length = pt.length + gcmTagSize := by
  simp [gcmSeal, xorBytes_length, C.keystream_length, C.tagOf_length]

theorem gcmOpen_tagged (C : CryptoModel) (key nonce ct : Bytes) :
    gcmOpen C key nonce (ct ++ C.tagOf key nonce ct) =
      some (xorBytes ct (C.keystream key nonce ct.length)) := by
  have htg := C.tagOf_length key nonce ct
  have hlen : (ct ++ C.tagOf key nonce ct).length = ct.length + gcmTagSize := by
    simp [htg]
  have hsub : ct.length + gcmTagSize - gcmTagSize = ct.length := by omega
  have htake : (ct ++ C.tagOf key nonce ct).take
      ((ct ++ C.tagOf key nonce ct).length - gcmTagSize) = ct := by
    rw [hlen, hsub]
    exact take_append_of_length ct _ ct.length rfl
  have hdrop : (ct ++ C.tagOf key nonce ct).drop
      ((ct ++ C.tagOf key nonce ct).length - gcmTagSize) = C.tagOf key nonce ct := by
    rw [hlen, hsub]
    exact drop_append_of_length ct _ ct.length rfl
  simp only [gcmOpen]
  rw [htake, hdrop, hlen, if_neg (by omega), if_pos rfl]

theorem gcmOpen_gcmSeal (C : CryptoModel) (key nonce pt : Bytes) :
    gcmOpen C key nonce (gcmSeal C key nonce pt) = some pt := by
  have hct : (xorBytes pt (C.keystream key nonce pt.length)).length = pt.length := by
    simp [xorBytes_length, C.keystream_length]
  show gcmOpen C key nonce
      (xorBytes pt (C.keystream key nonce pt.length) ++
        C.tagOf key nonce (xorBytes pt (C.keystream key nonce pt.length))) = some pt
  rw [gcmOpen_tagged, hct,
    xorBytes_cancel pt (C.keystream key nonce pt.length)
      (le_of_eq (C.keystream_length key nonce pt.length).symm)]

theorem encrypt_text_eq (C : CryptoModel) (rng : Bytes) (key : String) (p : paste) :
    (paste.encrypt C rng key p).text =
      rng.take gcmStandardNonceSize ++
        gcmSeal C (newAESGCMKey C key) (rng.take gcmStandardNonceSize) p.text := rfl

theorem encrypt_text_length (C : CryptoModel) (rng : Bytes) (key : String) (b : Bytes)
    (hrng : gcmStandardNonceSize ≤ rng.length) :
    (paste.encrypt C rng key ⟨b⟩).text.length = b.length + gcmStandardNonceSize + gcmTagSize := by
  have hn : (rng.take gcmStandardNonceSize).length = gcmStandardNonceSize := by
    simp [List.length_take]; omega
  simp [encrypt_text_eq, gcmSeal_length, hn]; omega

/-- Claim C1: for every plaintext byte sequence b and every passphrase k,
encrypting b with k and then decrypting the resulting blob with the same
k succeeds and returns exactly b (round-trip of paste.encrypt and
paste.decrypt), for any crypto primitives and any random stream that can
supply a full nonce. -/
theorem C1_encrypt_decrypt_roundtrip (C : CryptoModel) (rng : Bytes) (k : String) (b : Bytes)
    (hrng : gcmStandardNonceSize ≤ rng.length) :
    paste.decrypt C k (paste.encrypt C rng k ⟨b⟩) = Except.ok ⟨b⟩ := by
  have hn : (rng.take gcmStandardNonceSize).length = gcmStandardNonceSize := by
    simp [List.length_take]; omega
  have hlen : (paste.encrypt C rng k ⟨b⟩).text.length =
      b.length + gcmStandardNonceSize + gcmTagSize :=
    encrypt_text_length C rng k b hrng
  have htext := encrypt_text_eq C rng k ⟨b⟩
  simp only [paste.decrypt]
  rw [if_neg (by omega)]
  have htake : (paste.encrypt C rng k ⟨b⟩).text.take gcmStandardNonceSize =
      rng.take gcmStandardNonceSize := by
    rw [htext]
    exact take_append_of_length _ _ _ hn
  have hdrop : (paste.encrypt C rng k ⟨b⟩).text.drop gcmStandardNonceSize =
      gcmSeal C (newAESGCMKey C k) (rng.take gcmStandardNonceSize) b := by
    rw [htext]
    exact drop_append_of_length _ _ _ hn
  rw [htake, hdrop, gcmOpen_gcmSeal]

/-- Concrete crypto model instance used by witnesses: all primitives
return zero bytes of the contractual lengths. -/
def Czero : CryptoModel where
  sha256 := fun _ => List.replicate 32 0
  keystream := fun _ _ l => List.replicate l 0
  tagOf := fun _ _ _ => List.replicate gcmTagSize 0
  keystream_length := fun _ _ l => List.length_replicate l 0
  tagOf_length := fun _ _ _ => List.length_replicate gcmTagSize 0

/-- Witness for C1 at a concrete input: a 12-byte random stream satisfies
the nonce requirement and the round-trip holds on the paste bytes
[104, 105] with passphrase pw. -/
theorem C1_encrypt_decrypt_roundtrip_witness :
    gcmStandardNonceSize ≤ (List.replicate 12 0 : Bytes).length ∧
      paste.decrypt Czero "pw" (paste.encrypt Czero (List.replicate 12 0) "pw" ⟨[104, 105]⟩) =
        Except.ok ⟨[104, 105]⟩ :=
  ⟨by decide, C1_encrypt_decrypt_roundtrip Czero (List.replicate 12 0) "pw" [104, 105] (by decide)⟩

/-- Claim C3: decrypt fails closed.  Whenever the blob is strictly
shorter than the nonce size, or the authenticated open of the
nonce/ciphertext split fails, decrypt returns an error and never
plaintext. -/
theorem C3_decrypt_fails_closed (C : CryptoModel) (k : String) (p : paste)
    (h : p.text.length < gcmStandardNonceSize ∨
      gcmOpen C (newAESGCMKey C k) (p.text.take gcmStandardNonceSize)
        (p.text.drop gcmStandardNonceSize) = none) :
    ∃ msg, paste.decrypt C k p = Except.error msg := by
  by_cases hlen : gcmStandardNonceSize > p.text.length
  · exact ⟨"text not long enough to contain nonce", by
      simp only [paste.decrypt]; rw [if_pos hlen]⟩
  · rcases h with h | h
    · omega
    · refine ⟨"cipher: message authentication failed", ?_⟩
      simp only [paste.decrypt]
      rw [if_neg hlen, h]

/-- Witness for C3 at a concrete input: the empty blob is shorter than
the nonce size and decrypt reports an error on it. -/
theorem C3_decrypt_fails_closed_witness :
    (([] : Bytes).length < gcmStandardNonceSize ∨
      gcmOpen Czero (newAESGCMKey Czero "pw") (([] : Bytes).take gcmStandardNonceSize)
        (([] : Bytes).drop gcmStandardNonceSize) = none) ∧
      ∃ msg, paste.decrypt Czero "pw" ⟨[]⟩ = Except.error msg :=
  ⟨Or.inl (by decide), C3_decrypt_fails_closed Czero "pw" ⟨[]⟩ (Or.inl (by decide))⟩

/-- Claim C4: the encrypted blob is exactly the generated nonce followed
by the GCM sealing of the plaintext under the SHA-256-derived key with
that nonce; the nonce has the fixed standard size, sits unencrypted at
the front of the blob, and the symmetric key is exactly the hash of the
passphrase bytes. -/
theorem C4_encrypt_blob_structure (C : CryptoModel) (rng : Bytes) (k : String) (b : Bytes)
    (hrng : gcmStandardNonceSize ≤ rng.length) :
    (paste.encrypt C rng k ⟨b⟩).text =
        rng.take gcmStandardNonceSize ++
          gcmSeal C (newAESGCMKey C k) (rng.take gcmStandardNonceSize) b ∧
      (rng.take gcmStandardNonceSize).length = gcmStandardNonceSize ∧
      (paste.encrypt C rng k ⟨b⟩).text.take gcmStandardNonceSize =
        rng.take gcmStandardNonceSize ∧
      newAESGCMKey C k = C.sha256 (strBytes k) := by
  have hn : (rng.take gcmStandardNonceSize).length = gcmStandardNonceSize := by
    simp [List.length_take]; omega
  refine ⟨rfl, hn, ?_, rfl⟩
  rw [encrypt_text_eq]
  exact take_append_of_length _ _ _ hn

/-- Witness for C4 at a concrete input: a 12-byte random stream and the
plaintext [1, 2] under passphrase pw. -/
theorem C4_encrypt_blob_structure_witness :
    gcmStandardNonceSize ≤ (List.replicate 12 0 : Bytes).length ∧
      ((paste.encrypt Czero (List.replicate 12 0) "pw" ⟨[1, 2]⟩).text =
          (List.replicate 12 0 : Bytes).take gcmStandardNonceSize ++
            gcmSeal Czero (newAESGCMKey Czero "pw")
              ((List.replicate 12 0 : Bytes).take gcmStandardNonceSize) [1, 2] ∧
        ((List.replicate 12 0 : Bytes).take gcmStandardNonceSize).length =
          gcmStandardNonceSize ∧
        (paste.encrypt Czero (List.replicate 12 0) "pw" ⟨[1, 2]⟩).text.take
            gcmStandardNonceSize =
          (List.replicate 12 0 : Bytes).take gcmStandardNonceSize ∧
        newAESGCMKey Czero "pw" = Czero.sha256 (strBytes "pw")) :=
  ⟨by decide, C4_encrypt_blob_structure Czero (List.replicate 12 0) "pw" [1, 2] (by decide)⟩

/-- Counterexample to claim C9 as stated: encrypt does not leave the
paste struct unchanged in place; at the concrete paste [1, 2, 3] the text
field after encrypt differs from the original plaintext. -/
theorem C9_paste_never_mutated_cex :
    (paste.encrypt Czero (List.replicate 12 0) "pw" ⟨[1, 2, 3]⟩).text ≠ [1, 2, 3] := by
  have h := encrypt_text_length Czero (List.replicate 12 0) "pw" [1, 2, 3] (by decide)
  intro he
  rw [he] at h
  simp only [gcmStandardNonceSize, gcmTagSize, List.length_cons, List.length_nil] at h
  omega

/-- Claim C9 (amended): encrypt mutates the paste in place, replacing the
text field by the freshly built nonce-prefixed ciphertext blob; the new
representation has the plaintext length plus nonce and tag overhead and
therefore never equals the original plaintext bytes. -/
theorem C9_encrypt_replaces_text (C : CryptoModel) (rng : Bytes) (k : String) (b : Bytes)
    (hrng : gcmStandardNonceSize ≤ rng.length) :
    (paste.encrypt C rng k ⟨b⟩).text =
        rng.take gcmStandardNonceSize ++
          gcmSeal C (newAESGCMKey C k) (rng.take gcmStandardNonceSize) b ∧
      (paste.encrypt C rng k ⟨b⟩).text.length =
        b.length + gcmStandardNonceSize + gcmTagSize ∧
      (paste.encrypt C rng k ⟨b⟩).text ≠ b := by
  have h := encrypt_text_length C rng k b hrng
  refine ⟨rfl, h, fun he => ?_⟩
  rw [he] at h
  simp only [gcmStandardNonceSize, gcmTagSize] at h
  omega

/-- Witness for the amended C9 at a concrete input: the paste [1, 2, 3]
with a 12-byte random stream under passphrase pw. -/
theorem C9_encrypt_replaces_text_witness :
    gcmStandardNonceSize ≤ (List.replicate 12 0 : Bytes).length ∧
      ((paste.encrypt Czero (List.replicate 12 0) "pw" ⟨[1, 2, 3]⟩).text =
          (List.replicate 12 0 : Bytes).take gcmStandardNonceSize ++
            gcmSeal Czero (newAESGCMKey Czero "pw")
              ((List.replicate 12 0 : Bytes).take gcmStandardNonceSize) [1, 2, 3] ∧
        (paste.encrypt Czero (List.replicate 12 0) "pw" ⟨[1, 2, 3]⟩).text.length =
          [1, 2, 3].length + gcmStandardNonceSize + gcmTagSize ∧
        (paste.encrypt Czero (List.replicate 12 0) "pw" ⟨[1, 2, 3]⟩).text ≠ [1, 2, 3]) :=
  ⟨by decide, C9_encrypt_replaces_text Czero (List.replicate 12 0) "pw" [1, 2, 3] (by decide)⟩

/-! Path rewriting between the public paste prefix and the internal
store prefix (structured variant of ServeHTTP and putPasteHandler). -/

/-- Bytes of the public paste path prefix. -/
def pastePrefixB : Bytes := [47, 112, 97, 115, 116, 101, 47]

/-- Bytes of the internal IPLD store path prefix. -/
def ipfsPrefixB : Bytes := [47, 105, 112, 108, 100, 47]

/-- Go strings.Replace with count 1: replace the first occurrence of pat
by rep, leaving the string unchanged when pat does not occur. -/
def replaceFirst (pat rep : Bytes) : Bytes → Bytes
  | [] => if pat.isPrefixOf [] then rep else []
  | c :: cs =>
    if pat.isPrefixOf (c :: cs) then rep ++ (c :: cs).drop pat.length
    else c :: replaceFirst pat rep cs

/-- GET-side rewrite in ServeHTTP: the public paste prefix becomes the
internal store prefix before the store lookup. -/
def internalizePath (s : Bytes) : Bytes := replaceFirst pastePrefixB ipfsPrefixB s

/-- POST-side rewrite in ServeHTTP and putPasteHandler: the internal
store prefix of the returned path becomes the public paste prefix. -/
def publicizePath (s : Bytes) : Bytes := replaceFirst ipfsPrefixB pastePrefixB s

/-- Substring containment test on byte strings. -/
def containsSubstring (s pat : Bytes) : Bool :=
  pat.isPrefixOf s ||
    match s with
    | [] => false
    | _ :: cs => containsSubstring cs pat

theorem exists_suffix_of_isPrefixOf {l s : Bytes} (h : l.isPrefixOf s = true) :
    ∃ t, s = l ++ t := by
  induction l generalizing s with
  | nil => exact ⟨s, rfl⟩
  | cons c cs ih =>
    cases s with
    | nil => simp [List.isPrefixOf] at h
    | cons b bs =>
      simp only [List.isPrefixOf, Bool.and_eq_true, beq_iff_eq] at h
      obtain ⟨rfl, h2⟩ := h
      obtain ⟨t, rfl⟩ := ih h2
      exact ⟨t, rfl⟩

/-- Counterexample to claim C5 as stated: the string of bytes of
/ipld/paste/x contains the paste prefix, yet rewriting the paste prefix
to the store prefix and back does not return it unchanged. -/
theorem C5_path_rewrite_roundtrip_cex :
    containsSubstring [47, 105, 112, 108, 100, 47, 112, 97, 115, 116, 101, 47, 120]
        pastePrefixB = true ∧
      publicizePath (internalizePath
          [47, 105, 112, 108, 100, 47, 112, 97, 115, 116, 101, 47, 120]) ≠
        [47, 105, 112, 108, 100, 47, 112, 97, 115, 116, 101, 47, 120] := by
  decide

/-- Claim C5 (amended): on every string that starts with the public
paste prefix -- the only strings the handler feeds to the rewrite after
its HasPrefix check -- the substitution pair is inverse: rewriting the
paste prefix to the store prefix and then the store prefix back to the
paste prefix returns the string unchanged. -/
theorem C5_path_rewrite_roundtrip (s : Bytes) (h : pastePrefixB.isPrefixOf s = true) :
    publicizePath (internalizePath s) = s := by
  obtain ⟨t, rfl⟩ := exists_suffix_of_isPrefixOf h
  simp [internalizePath, publicizePath, pastePrefixB, ipfsPrefixB, replaceFirst,
    List.isPrefixOf]

/-- Witness for the amended C5 at a concrete input: the bytes of
/paste/a start with the paste prefix and round-trip unchanged. -/
theorem C5_path_rewrite_roundtrip_witness :
    pastePrefixB.isPrefixOf [47, 112, 97, 115, 116, 101, 47, 97] = true ∧
      publicizePath (internalizePath [47, 112, 97, 115, 116, 101, 47, 97]) =
        [47, 112, 97, 115, 116, 101, 47, 97] :=
  ⟨by decide, C5_path_rewrite_roundtrip [47, 112, 97, 115, 116, 101, 47, 97] (by decide)⟩

/-! Store adapter read truncation. -/

/-- Maximum paste body size in bytes (1 MiB). -/
def maxPasteSize : Nat := 1048576

/-- Maximum title size in bytes. -/
def maxTitleSize : Nat := 100

/-- Read bound of the structured variant: paste body plus title plus
JSON framing slack. -/
def maxJSONSize : Nat := maxPasteSize + maxTitleSize + 100

/-- Read truncation of getPaste in the encryption variant: the store
reader is wrapped in a LimitReader at maxPasteSize before ReadAll. -/
def getPasteRead (stored : Bytes) : Bytes := stored.take maxPasteSize

/-- Read truncation of getPaste in the structured variant: the store
reader is wrapped in a LimitReader at maxJSONSize before ReadAll. -/
def getPasteReadJSON (stored : Bytes) : Bytes := stored.take maxJSONSize

/-- Counterexample to claim C8 as stated: the structured variant's
adapter read is bounded by maxJSONSize, not by the 1 MiB maximum paste
size; a stored object of maxJSONSize bytes comes back longer than
1048576 bytes. -/
theorem C8_read_truncation_cex :
    maxPasteSize < (getPasteReadJSON (List.replicate maxJSONSize 0)).length := by
  have h : (getPasteReadJSON (List.replicate maxJSONSize 0)).length = maxJSONSize := by
    simp [getPasteReadJSON, List.length_take]
  rw [h]
  norm_num [maxPasteSize, maxJSONSize, maxTitleSize]

/-- Claim C8 (amended): every adapter read is truncated at a fixed
bound: the raw/encryption variant truncates at maxPasteSize (1048576
bytes) and the structured variant at maxJSONSize (1048776 bytes =
maxPasteSize + maxTitleSize + 100), regardless of how large the stored
object is. -/
theorem C8_read_truncation_bounds (stored : Bytes) :
    (getPasteRead stored).length ≤ maxPasteSize ∧
      (getPasteReadJSON stored).length ≤ maxJSONSize := by
  constructor
  · simp only [getPasteRead, List.length_take]
    omega
  · simp only [getPasteReadJSON, List.length_take]
    omega

/-! Request handler of the structured variant: path validation, name
validation and the POST store interaction of ServeHTTP. -/

/-- HTTP outcome of a handler: either a successful body write or an
http.Error with a status code. -/
inductive HResp where
  | ok (body : Bytes)
  | error (status : Nat)
deriving DecidableEq

/-- Character class of the validPasteName regular expression: lower or
upper case letters, digits, or a dot. -/
def isPasteNameChar (c : Nat) : Bool :=
  (97 ≤ c && c ≤ 122) || (65 ≤ c && c ≤ 90) || (48 ≤ c && c ≤ 57) || c == 46

/-- The validPasteName check: the whole name consists of allowed
characters (the anchored starred regular expression also accepts the
empty name). -/
def validPasteName (s : Bytes) : Bool := s.all isPasteNameChar

/-- path.IsAbs: the path starts with a slash. -/
def isAbs (s : Bytes) : Bool :=
  match s with
  | 47 :: _ => true
  | _ => false

/-- strings.TrimPrefix with the slash prefix: drop one leading slash if
present. -/
def trimPrefixSlash : Bytes → Bytes
  | 47 :: rest => rest
  | s => s

/-- The Paste struct of the structured variant: a name and a text body,
both byte strings. -/
structure Paste where
  Name : Bytes
  Text : Bytes
deriving DecidableEq

/-- Literal bytes of the JSON fragment opening the name field. -/
def jsonHead : Bytes := [123, 34, 110, 97, 109, 101, 34, 58, 34]

/-- Literal bytes of the JSON fragment between the name and text fields. -/
def jsonMid : Bytes := [34, 44, 34, 116, 101, 120, 116, 34, 58, 34]

/-- Literal bytes of the JSON fragment closing the text field. -/
def jsonTail : Bytes := [34, 125]

/-- The toJSON method: plain string concatenation of the JSON framing
around the raw name and text bytes, with no escaping. -/
def Paste.toJSON (p : Paste) : Bytes :=
  jsonHead ++ p.Name ++ jsonMid ++ p.Text ++ jsonTail

/-- POST branch of the structured variant's ServeHTTP, including the
shared absolute-path and length validation that precedes method
dispatch.  The store is a put oracle; the second component records every
blob handed to the store, so store interaction is observable. -/
def servePost (put : Bytes → Option Bytes) (rawPath : Bytes) (body : Option Bytes) :
    HResp × List Bytes :=
  if isAbs rawPath = false ∨ rawPath.length > maxTitleSize then
    (HResp.error 406, [])
  else
    let name := trimPrefixSlash rawPath
    if validPasteName name = false then
      (HResp.error 400, [])
    else
      match body with
      | none => (HResp.error 500, [])
      | some b =>
        let blob := (Paste.mk name b).toJSON
        match put blob with
        | none => (HResp.error 500, [blob])
        | some pathStr => (HResp.ok (publicizePath pathStr), [blob])

/-- Counterexample to claim C6 as stated: a POST path that is over the
length bound and contains a disallowed character (a space) is rejected
with status 406 by the earlier path check, not with the claimed 400. -/
theorem C6_invalid_name_400_cex :
    (∃ c ∈ trimPrefixSlash (47 :: (List.replicate 100 97 ++ [32])),
        isPasteNameChar c = false) ∧
      (servePost (fun _ => none) (47 :: (List.replicate 100 97 ++ [32])) (some [])).1 ≠
        HResp.error 400 := by
  decide

/-- Claim C6 (amended): a POST whose path segment minus the leading
slash contains a character outside the allowed set is always answered
with a client error -- 400 from the name check when the path passed the
absolute/length pre-check, 406 from that pre-check otherwise -- and the
store put oracle is never invoked. -/
theorem C6_invalid_name_no_put (put : Bytes → Option Bytes) (rawPath : Bytes)
    (body : Option Bytes)
    (h : ∃ c ∈ trimPrefixSlash rawPath, isPasteNameChar c = false) :
    (servePost put rawPath body).2 = [] ∧
      ((servePost put rawPath body).1 = HResp.error 400 ∨
        (servePost put rawPath body).1 = HResp.error 406) ∧
      (isAbs rawPath = true → rawPath.length ≤ maxTitleSize →
        (servePost put rawPath body).1 = HResp.error 400) := by
  have hv : validPasteName (trimPrefixSlash rawPath) = false := by
    rcases h with ⟨c, hc, hcv⟩
    cases hall : validPasteName (trimPrefixSlash rawPath) with
    | false => rfl
    | true =>
      simp only [validPasteName] at hall
      have := List.all_eq_true.mp hall c hc
      rw [hcv] at this
      cases this
  by_cases h1 : isAbs rawPath = false ∨ rawPath.length > maxTitleSize
  · have e : servePost put rawPath body = (HResp.error 406, []) := by
      simp only [servePost]
      rw [if_pos h1]
    rw [e]
    refine ⟨rfl, Or.inr rfl, fun ha hl => ?_⟩
    exfalso
    rcases h1 with h1 | h1
    · rw [ha] at h1; cases h1
    · omega
  · have e : servePost put rawPath body = (HResp.error 400, []) := by
      simp only [servePost]
      rw [if_neg h1, if_pos hv]
    rw [e]
    exact ⟨rfl, Or.inl rfl, fun _ _ => rfl⟩

/-- Witness for the amended C6 at a concrete input: the POST path /a b
contains a space, is answered with 400, and triggers no store put. -/
theorem C6_invalid_name_no_put_witness :
    (∃ c ∈ trimPrefixSlash [47, 97, 32, 98], isPasteNameChar c = false) ∧
      ((servePost (fun _ => none) [47, 97, 32, 98] (some [])).2 = [] ∧
        ((servePost (fun _ => none) [47, 97, 32, 98] (some [])).1 = HResp.error 400 ∨
          (servePost (fun _ => none) [47, 97, 32, 98] (some [])).1 = HResp.error 406) ∧
        (isAbs [47, 97, 32, 98] = true → ([47, 97, 32, 98] : Bytes).length ≤ maxTitleSize →
          (servePost (fun _ => none) [47, 97, 32, 98] (some [])).1 = HResp.error 400)) :=
  ⟨⟨32, by decide, by decide⟩,
    C6_invalid_name_no_put (fun _ => none) [47, 97, 32, 98] (some [])
      ⟨32, by decide, by decide⟩⟩

/-- Counterexample to claim C7 as stated: a name of exactly 100 allowed
bytes is rejected by the path-length check with status 406, because the
check bounds the full path including the leading slash by 100. -/
theorem C7_name_length_cex :
    (List.replicate 100 97 : Bytes).all isPasteNameChar = true ∧
      (List.replicate 100 97 : Bytes).length ≤ 100 ∧
      (servePost (fun _ => none) (47 :: List.replicate 100 97) (some [])).1 =
        HResp.error 406 := by
  decide

/-- Claim C7 (amended): a POST name of at most 99 bytes drawn from the
allowed character set passes both the path-length check and the name
check: the request is never rejected with 406 or 400. -/
theorem C7_valid_name_accepted (name : Bytes) (put : Bytes → Option Bytes)
    (body : Option Bytes)
    (h1 : name.all isPasteNameChar = true) (h2 : name.length ≤ 99) :
    (servePost put (47 :: name) body).1 ≠ HResp.error 400 ∧
      (servePost put (47 :: name) body).1 ≠ HResp.error 406 := by
  have hc1 : ¬ (isAbs (47 :: name) = false ∨ (47 :: name).length > maxTitleSize) := by
    rintro (ha | hl)
    · simp [isAbs] at ha
    · simp only [List.length_cons, maxTitleSize] at hl; omega
  have htrim : trimPrefixSlash (47 :: name) = name := rfl
  have hc2 : ¬ (validPasteName name = false) := by
    simp [validPasteName, h1]
  simp only [servePost, if_neg hc1, htrim, if_neg hc2]
  cases body with
  | none => exact ⟨by simp, by simp⟩
  | some b =>
    cases hput : put (Paste.mk name b).toJSON with
    | none => constructor <;> simp [hput]
    | some ps => constructor <;> simp [hput]

/-- Witness for the amended C7 at a concrete input: a 99-byte name of
letters is accepted past the path and name checks. -/
theorem C7_valid_name_accepted_witness :
    (List.replicate 99 97 : Bytes).all isPasteNameChar = true ∧
      (List.replicate 99 97 : Bytes).length ≤ 99 ∧
      ((servePost (fun _ => none) (47 :: List.replicate 99 97) (some [])).1 ≠
          HResp.error 400 ∧
        (servePost (fun _ => none) (47 :: List.replicate 99 97) (some [])).1 ≠
          HResp.error 406) :=
  ⟨by decide, by decide,
    C7_valid_name_accepted (List.replicate 99 97) (fun _ => none) (some [])
      (by decide) (by decide)⟩

/-! Request handlers of the encryption variant (raw wire format): the
key query parameter toggles encryption on put and decryption on get. -/

/-- Name of the passphrase query parameter. -/
def keyParamName : String := "key"

/-- url.Values Get: the first value recorded for the parameter, or the
empty string when the parameter is absent. -/
def queryGet (q : List (String × String)) (name : String) : String :=
  match q.find? (fun kv => kv.1 == name) with
  | some kv => kv.2
  | none => ""

/-- putPasteHandler of the encryption variant: read the body, wrap it in
a paste, encrypt only when the key query parameter is non-empty, hand
the paste text to the store and answer with the publicized store path.
The second component records every blob handed to the store. -/
def putPasteHandler (C : CryptoModel) (rng : Bytes) (q : List (String × String))
    (body : Option Bytes) (put : Bytes → Option Bytes) : HResp × List Bytes :=
  match body with
  | none => (HResp.error 500, [])
  | some b =>
    let p : paste := ⟨b⟩
    let p2 := if queryGet q keyParamName ≠ "" then
        paste.encrypt C rng (queryGet q keyParamName) p
      else p
    match put p2.text with
    | none => (HResp.error 500, [p2.text])
    | some pathStr => (HResp.ok (publicizePath pathStr), [p2.text])

/-- getPasteHandler of the encryption variant: fetch the stored object
(bounded by the maxPasteSize read limit), decrypt only when the key
query parameter is non-empty, and answer with the paste text. -/
def getPasteHandler (C : CryptoModel) (q : List (String × String))
    (stored : Option Bytes) : HResp :=
  match stored with
  | none => HResp.error 404
  | some raw =>
    let p : paste := ⟨getPasteRead raw⟩
    if queryGet q keyParamName ≠ "" then
      match paste.decrypt C (queryGet q keyParamName) p with
      | Except.error _ => HResp.error 500
      | Except.ok p2 => HResp.ok p2.text
    else HResp.ok p.text

/-- Claim C10: a key query parameter whose value is the empty string is
treated exactly as an absent key.  On POST the body is handed to the
store unencrypted and the handler behaves as with no query parameters at
all; on GET the (read-bounded) stored bytes are answered with no
decryption attempt, again exactly as with no query parameters. -/
theorem C10_empty_key_as_absent (C : CryptoModel) (rng : Bytes)
    (q : List (String × String)) (b raw : Bytes) (put : Bytes → Option Bytes)
    (h : queryGet q keyParamName = "") :
    (putPasteHandler C rng q (some b) put).2 = [b] ∧
      putPasteHandler C rng q (some b) put = putPasteHandler C rng [] (some b) put ∧
      getPasteHandler C q (some raw) = HResp.ok (getPasteRead raw) ∧
      getPasteHandler C q (some raw) = getPasteHandler C [] (some raw) := by
  have h0 : queryGet ([] : List (String × String)) keyParamName = "" := rfl
  refine ⟨?_, ?_, ?_, ?_⟩
  · cases hput : put b with
    | none => simp [putPasteHandler, h, hput]
    | some ps => simp [putPasteHandler, h, hput]
  · simp [putPasteHandler, h, h0]
  · simp [getPasteHandler, h]
  · simp [getPasteHandler, h, h0]

/-- Witness for C10 at a concrete input: a query list holding key with
the empty value is treated as no key on both the put and the get path. -/
theorem C10_empty_key_as_absent_witness :
    queryGet [(keyParamName, "")] keyParamName = "" ∧
      ((putPasteHandler Czero (List.replicate 12 0) [(keyParamName, "")] (some [1, 2])
            (fun _ => none)).2 = [[1, 2]] ∧
        putPasteHandler Czero (List.replicate 12 0) [(keyParamName, "")] (some [1, 2])
            (fun _ => none) =
          putPasteHandler Czero (List.replicate 12 0) [] (some [1, 2]) (fun _ => none) ∧
        getPasteHandler Czero [(keyParamName, "")] (some [3, 4]) =
          HResp.ok (getPasteRead [3, 4]) ∧
        getPasteHandler Czero [(keyParamName, "")] (some [3, 4]) =
          getPasteHandler Czero [] (some [3, 4])) :=
  ⟨rfl, C10_empty_key_as_absent Czero (List.replicate 12 0) [(keyParamName, "")]
    [1, 2] [3, 4] (fun _ => none) rfl⟩

/-! JSON envelope decoding for the structured variant.  pasteFromJSON
delegates to the Go standard-library json.Unmarshal; the model below
follows its documented grammar on the fragment relevant to Paste
decoding: an object of string-valued members parsed into the zero-valued
Paste, with string escapes decoded, raw control bytes rejected, and any
trailing garbage after the object rejected.  The unicode escape form and
non-string member values are not produced by the encoder and are
modelled as rejections. -/

/-- Decoding of a single-character JSON string escape. -/
def unescapeByte (e : Nat) : Option Nat :=
  if e = 34 then some 34
  else if e = 92 then some 92
  else if e = 47 then some 47
  else if e = 98 then some 8
  else if e = 102 then some 12
  else if e = 110 then some 10
  else if e = 114 then some 13
  else if e = 116 then some 9
  else none

/-- Parse the body of a JSON string after the opening quote: a closing
quote ends the string, a backslash starts an escape, raw control bytes
are rejected, any other byte is taken verbatim.  Returns the decoded
content and the remaining input after the closing quote. -/
def parseStringBody : Bytes → Option (Bytes × Bytes)
  | [] => none
  | c :: rest =>
    if c = 34 then some ([], rest)
    else if c = 92 then
      match rest with
      | [] => none
      | e :: rest2 =>
        match unescapeByte e with
        | none => none
        | some d =>
          match parseStringBody rest2 with
          | none => none
          | some (s, r) => some (d :: s, r)
    else if c < 32 then none
    else
      match parseStringBody rest with
      | none => none
      | some (s, r) => some (c :: s, r)
termination_by structural x => x

/-- Parse one string-valued object member: a quoted key, a colon, and a
quoted value.  Returns key, value and the remaining input. -/
def parseMember (input : Bytes) : Option (Bytes × Bytes × Bytes) :=
  match input with
  | 34 :: rest =>
    match parseStringBody rest with
    | none => none
    | some (k, r1) =>
      match r1 with
      | 58 :: 34 :: r2 =>
        match parseStringBody r2 with
        | none => none
        | some (v, r3) => some (k, v, r3)
      | _ => none
  | _ => none

/-- Bytes of the name member key. -/
def nameKeyBytes : Bytes := [110, 97, 109, 101]

/-- Bytes of the text member key. -/
def textKeyBytes : Bytes := [116, 101, 120, 116]

/-- Parse the members of the object after the opening brace, folding the
name and text members into the accumulated Paste and ignoring unknown
string-valued members, until the closing brace ends the input. -/
def parseMembers : Nat → Bytes → Paste → Option Paste
  | 0, _, _ => none
  | fuel + 1, input, acc =>
    match parseMember input with
    | none => none
    | some (k, v, rest) =>
      let acc2 := if k = nameKeyBytes then { acc with Name := v }
        else if k = textKeyBytes then { acc with Text := v }
        else acc
      match rest with
      | [125] => some acc2
      | 44 :: rest2 => parseMembers fuel rest2 acc2
      | _ => none

/-- pasteFromJSON: json.Unmarshal of the stored bytes into a zero-valued
Paste, on the object-of-strings grammar. -/
def pasteFromJSON (b : Bytes) : Option Paste :=
  match b with
  | 123 :: 125 :: rest => if rest = [] then some ⟨[], []⟩ else none
  | 123 :: rest => parseMembers (rest.length + 1) rest ⟨[], []⟩
  | _ => none

/-- Byte classes that pass through both the unescaped encoder and the
string-body decoder unchanged. -/
def isSafeTextByte (c : Nat) : Bool :=
  (32 ≤ c && c ≤ 126) && c != 34 && c != 92

theorem parseStringBody_safe_append (s : Bytes)
    (hs : ∀ c ∈ s, 32 ≤ c ∧ c ≠ 34 ∧ c ≠ 92) (rest : Bytes) :
    parseStringBody (s ++ 34 :: rest) = some (s, rest) := by
  induction s with
  | nil =>
    rw [List.nil_append, parseStringBody.eq_def]
    simp
  | cons c cs ih =>
    have hc := hs c (by simp)
    have hcs : ∀ x ∈ cs, 32 ≤ x ∧ x ≠ 34 ∧ x ≠ 92 := fun x hx => hs x (by simp [hx])
    rw [List.cons_append, parseStringBody.eq_def]
    simp only []
    rw [if_neg hc.2.1, if_neg hc.2.2, if_neg (by omega)]
    rw [ih hcs]

theorem parseMember_safe (k v rest : Bytes)
    (hk : ∀ c ∈ k, 32 ≤ c ∧ c ≠ 34 ∧ c ≠ 92)
    (hv : ∀ c ∈ v, 32 ≤ c ∧ c ≠ 34 ∧ c ≠ 92) :
    parseMember (34 :: (k ++ (34 :: 58 :: 34 :: (v ++ (34 :: rest))))) =
      some (k, v, rest) := by
  have h1 := parseStringBody_safe_append k hk (58 :: 34 :: (v ++ (34 :: rest)))
  have h2 := parseStringBody_safe_append v hv rest
  simp only [parseMember]
  rw [h1]
  simp only []
  rw [h2]

theorem parseMembers_pair (fuel : Nat) (acc : Paste) (Nm Tx : Bytes)
    (hName : ∀ c ∈ Nm, 32 ≤ c ∧ c ≠ 34 ∧ c ≠ 92)
    (hText : ∀ c ∈ Tx, 32 ≤ c ∧ c ≠ 34 ∧ c ≠ 92) :
    parseMembers (fuel + 2)
      (34 :: (nameKeyBytes ++ (34 :: 58 :: 34 :: (Nm ++
        (34 :: (44 :: (34 :: (textKeyBytes ++ (34 :: 58 :: 34 :: (Tx ++
          (34 :: [125])))))))))))
      acc = some ⟨Nm, Tx⟩ := by
  have hkN : ∀ c ∈ nameKeyBytes, 32 ≤ c ∧ c ≠ 34 ∧ c ≠ 92 := by decide
  have hkT : ∀ c ∈ textKeyBytes, 32 ≤ c ∧ c ≠ 34 ∧ c ≠ 92 := by decide
  have hm1 := parseMember_safe nameKeyBytes Nm
    (44 :: (34 :: (textKeyBytes ++ (34 :: 58 :: 34 :: (Tx ++ (34 :: [125]))))))
    hkN hName
  have hm2 := parseMember_safe textKeyBytes Tx [125] hkT hText
  show parseMembers (fuel + 1 + 1) _ acc = some ⟨Nm, Tx⟩
  rw [parseMembers, hm1]
  simp only []
  rw [if_pos trivial]
  rw [parseMembers, hm2]
  simp only []
  rw [if_neg (by decide), if_pos trivial]

theorem pasteNameChar_safe {c : Nat} (h : isPasteNameChar c = true) :
    32 ≤ c ∧ c ≠ 34 ∧ c ≠ 92 := by
  simp only [isPasteNameChar, Bool.or_eq_true, Bool.and_eq_true, decide_eq_true_eq,
    beq_iff_eq] at h
  omega

theorem safeTextByte_safe {c : Nat} (h : isSafeTextByte c = true) :
    32 ≤ c ∧ c ≠ 34 ∧ c ≠ 92 := by
  simp only [isSafeTextByte, Bool.and_eq_true, decide_eq_true_eq, bne_iff_ne,
    ne_eq] at h
  omega

theorem toJSON_shape (p : Paste) :
    p.toJSON = 123 :: (34 :: (nameKeyBytes ++ (34 :: 58 :: 34 :: (p.Name ++
      (34 :: (44 :: (34 :: (textKeyBytes ++ (34 :: 58 :: 34 :: (p.Text ++
        (34 :: [125]))))))))))) := by
  simp [Paste.toJSON, jsonHead, jsonMid, jsonTail, nameKeyBytes, textKeyBytes]

/-- Counterexample to claim C2 as stated: the valid Paste with empty
name and the single-byte text consisting of one double-quote character
does not survive the envelope round-trip, because toJSON performs no
escaping and produces malformed JSON that pasteFromJSON rejects. -/
theorem C2_envelope_roundtrip_cex :
    pasteFromJSON (Paste.mk [] [34]).toJSON ≠ some (Paste.mk [] [34]) := by
  decide

/-- Claim C2 (amended): the envelope round-trip holds on every Paste
whose name is drawn from the allowed character set within the title
bound and whose text bytes are printable ASCII other than the
double-quote and backslash bytes: decoding the envelope encoding of such
a Paste succeeds and returns it unchanged.  Texts containing a quote,
backslash, or control byte break the round-trip, as the counterexample
shows. -/
theorem C2_envelope_roundtrip (p : Paste)
    (hn : p.Name.all isPasteNameChar = true)
    (hlen : p.Name.length ≤ maxTitleSize)
    (ht : p.Text.all isSafeTextByte = true) :
    pasteFromJSON p.toJSON = some p := by
  have hName : ∀ c ∈ p.Name, 32 ≤ c ∧ c ≠ 34 ∧ c ≠ 92 := fun c hc =>
    pasteNameChar_safe (List.all_eq_true.mp hn c hc)
  have hText : ∀ c ∈ p.Text, 32 ≤ c ∧ c ≠ 34 ∧ c ≠ 92 := fun c hc =>
    safeTextByte_safe (List.all_eq_true.mp ht c hc)
  rw [toJSON_shape]
  simp only [pasteFromJSON]
  have hfuel := parseMembers_pair
    ((nameKeyBytes ++ (34 :: 58 :: 34 :: (p.Name ++ (34 :: (44 :: (34 ::
      (textKeyBytes ++ (34 :: 58 :: 34 :: (p.Text ++ (34 :: [125])))))))))).length)
    ⟨[], []⟩ p.Name p.Text hName hText
  exact hfuel

/-- Witness for the amended C2 at a concrete input: the Paste named a
with text h! satisfies the hypotheses and round-trips through the
envelope. -/
theorem C2_envelope_roundtrip_witness :
    (Paste.mk [97] [104, 33]).Name.all isPasteNameChar = true ∧
      (Paste.mk [97] [104, 33]).Name.length ≤ maxTitleSize ∧
      (Paste.mk [97] [104, 33]).Text.all isSafeTextByte = true ∧
      pasteFromJSON (Paste.mk [97] [104, 33]).toJSON = some (Paste.mk [97] [104, 33]) :=
  ⟨by decide, by decide, by decide,
    C2_envelope_roundtrip (Paste.mk [97] [104, 33]) (by decide) (by decide) (by decide)⟩
